import Mathlib

/-!
Verification of the Fac3Lab face-recognition pipeline.

The repository has two source files:
* `recognition.py`: a command-line pipeline with training (`process_known_faces`),
  identification (`_identify_face`), annotation (`detect_faces`) and validation
  (`check_model_performance`) steps, plus an `argparse` front end;
* `frp.py`: a tkinter launcher that opens a file dialog and spawns
  `recognition.py --test -f <path>` as a subprocess.

The external `face_recognition` library (face detection, embedding extraction
and comparison) is modelled by function parameters; Python's
`collections.Counter.most_common(1)` is modelled by a strict-greater scan that
returns the first element (in first-occurrence order) attaining the maximal
count, which is exactly CPython's behaviour (insertion-ordered dict plus a
stable sort); `pickle` is modelled by a concrete length-prefixed serializer
over `List Nat`.
-/

namespace Fac3Lab

/-- A face embedding vector, produced by the external library.  The library
returns fixed-length float vectors; only their identity matters here. -/
abbrev FaceEncoding := List Int

/-- An opaque image handle (the result of `face_recognition.load_image_file`). -/
abbrev ImageData := Nat

/-- A face bounding box `(top, right, bottom, left)` as returned by
`face_recognition.face_locations`. -/
abbrev FaceLoc := Nat × Nat × Nat × Nat

/-- The encoding store written by `process_known_faces` and read back by
`detect_faces`: two parallel sequences of labels and embeddings
(`names_and_encodings = {"names": ..., "encodings": ...}`). -/
structure Store where
  names : List String
  encodings : List FaceEncoding
  deriving DecidableEq, Repr

/-- One file found by `Path("training_data").glob("*/*")`: its parent-directory
name (the identity label) and the loaded image. -/
structure TrainingFile where
  parentName : String
  img : ImageData
  deriving DecidableEq, Repr

/-- The embeddings the external library extracts from one training file:
`face_recognition.face_encodings(img, face_recognition.face_locations(img, model))`. -/
def encodedFaces (faceLocations : ImageData → List FaceLoc)
    (faceEncodings : ImageData → List FaceLoc → List FaceEncoding)
    (file : TrainingFile) : List FaceEncoding :=
  faceEncodings file.img (faceLocations file.img)

/-- `process_known_faces`: walk the training files in order, and for each
embedding of each file append the file's parent-directory name to `names`
and the embedding to `encodings`. -/
def processKnownFaces (faceLocations : ImageData → List FaceLoc)
    (faceEncodings : ImageData → List FaceLoc → List FaceEncoding)
    (files : List TrainingFile) : Store :=
  let p := files.foldl
    (fun acc file =>
      let encoded := encodedFaces faceLocations faceEncodings file
      (acc.1 ++ encoded.map (fun _ => file.parentName), acc.2 ++ encoded))
    ([], [])
  { names := p.1, encodings := p.2 }

/-- `face_recognition.compare_faces(stored, unknown)`: one boolean per stored
embedding, true when the stored embedding is within the library's similarity
threshold of the unknown one.  The threshold test itself is the external
library's; it is the parameter `cmp`. -/
def compareFaces (cmp : FaceEncoding → FaceEncoding → Bool)
    (stored : List FaceEncoding) (unknown : FaceEncoding) : List Bool :=
  stored.map (fun e => cmp e unknown)

/-- The matching labels, in store order:
`(name for match, name in zip(matches, stored_encodings["names"]) if match)`. -/
def matchedNames (cmp : FaceEncoding → FaceEncoding → Bool)
    (unknown : FaceEncoding) (store : Store) : List String :=
  (((compareFaces cmp store.encodings unknown).zip store.names).filter
    (fun p => p.1)).map (fun p => p.2)

/-- Scan a list keeping the element with the strictly largest count seen so
far; on ties the earlier element is kept.  Starting from the head of a list
this returns the first element (in position order) attaining the maximal
`cnt`, which is what `Counter(...).most_common(1)[0][0]` returns: `Counter`
keys are in first-insertion order and `most_common` sorts stably by count. -/
def pickMax (cnt : String → Nat) : String → List String → String
  | best, [] => best
  | best, x :: xs => pickMax cnt (if cnt best < cnt x then x else best) xs

/-- `Counter(l).most_common(1)[0][0]` for a nonempty `l`, `none` for `[]`. -/
def mostCommon1 (l : List String) : Option String :=
  match l with
  | [] => none
  | x :: xs => some (pickMax (fun y => l.count y) x xs)

/-- `_identify_face`: tally the matching stored labels and return the plurality
winner, or `None` (here `none`) when no stored embedding matches (the Python
function falls off the end, returning `None`, exactly when `votes` is empty,
i.e. when the matched-name iterator is empty). -/
def identifyFace (cmp : FaceEncoding → FaceEncoding → Bool)
    (unknown : FaceEncoding) (store : Store) : Option String :=
  mostCommon1 (matchedNames cmp unknown store)

/-- The label `detect_faces` draws for one face: the identified name, except
that any falsy result (`None` or the empty string) is replaced by
`"Unknown"` (`if not name: name = "Unknown"`). -/
def faceLabel (cmp : FaceEncoding → FaceEncoding → Bool)
    (unknown : FaceEncoding) (store : Store) : String :=
  match identifyFace cmp unknown store with
  | none => "Unknown"
  | some n => if n = "" then "Unknown" else n

/-- The annotations `detect_faces` draws: one `(coordinates, label)` pair per
element of `zip(unknown_face_locations, unknown_face_encodings)`. -/
def detectFacesLabels (cmp : FaceEncoding → FaceEncoding → Bool)
    (locs : List FaceLoc) (encs : List FaceEncoding) (store : Store) :
    List (FaceLoc × String) :=
  (locs.zip encs).map (fun p => (p.1, faceLabel cmp p.2 store))

/-- The parsed command line (`argparse` namespace): three `store_true` mode
flags, `-m` with choices `hog`/`cnn` defaulting to `"hog"`, and `-f` storing
a path with no default (Python `None`, here `none`). -/
structure Args where
  train : Bool
  validate : Bool
  test : Bool
  m : String
  f : Option String
  deriving DecidableEq, Repr

/-- The `argparse` defaults before any argument is seen. -/
def defaultArgs : Args :=
  { train := false, validate := false, test := false, m := "hog", f := none }

/-- One pass of `arg_parser.parse_args` over the remaining argument vector.
An unknown argument, a missing option value, or a `-m` value outside
`{hog, cnn}` makes `argparse` error out (modelled as `none`); otherwise the
namespace is updated and parsing continues. -/
def parseArgsAux : List String → Args → Option Args
  | [], a => some a
  | s :: rest, a =>
    if s = "--train" then parseArgsAux rest { a with train := true }
    else if s = "--validate" then parseArgsAux rest { a with validate := true }
    else if s = "--test" then parseArgsAux rest { a with test := true }
    else if s = "-m" then
      match rest with
      | v :: rest2 =>
        if v = "hog" ∨ v = "cnn" then parseArgsAux rest2 { a with m := v }
        else none
      | [] => none
    else if s = "-f" then
      match rest with
      | v :: rest2 => parseArgsAux rest2 { a with f := some v }
      | [] => none
    else none

/-- `arg_parser.parse_args(argv)`. -/
def parseArgs (argv : List String) : Option Args :=
  parseArgsAux argv defaultArgs

/-- One step the `__main__` block can run: `process_known_faces(model=m)`,
`check_model_performance(model=m)`, or `detect_faces(image_path=f, model=m)`. -/
inductive MainAction where
  | train (m : String)
  | validate (m : String)
  | test (f : Option String) (m : String)
  deriving DecidableEq, Repr

/-- The sequence of steps the `__main__` block runs for parsed arguments `a`:
`if args.train: ...` then `if args.validate: ...` then `if args.test: ...`. -/
def mainActions (a : Args) : List MainAction :=
  (if a.train then [MainAction.train a.m] else []) ++
  (if a.validate then [MainAction.validate a.m] else []) ++
  (if a.test then [MainAction.test a.f a.m] else [])

/-- The argument vector `frp.py` passes to `subprocess.run`:
`[sys.executable, "./recognition.py", "--test", "-f", image_path]`. -/
def recognitionCmd (pythonExe : String) (imagePath : String) : List String :=
  [pythonExe, "./recognition.py", "--test", "-f", imagePath]

/-- `open_file_dialog` in `frp.py`: `filedialog.askopenfilename()` returns the
chosen path, or the empty string on cancel; only a truthy (non-empty) result
leads to `run_face_recognition`, which spawns the subprocess.  The returned
value is the spawned command line, or `none` when nothing is spawned. -/
def openFileDialog (pythonExe : String) (dialogResult : String) :
    Option (List String) :=
  if dialogResult ≠ "" then some (recognitionCmd pythonExe dialogResult)
  else none

/-!
Serialization.  `pickle.dump`/`pickle.load` live outside this repository.
Modelled from the spec: the store is "a single opaque serialized blob" and
"serializing a store and reloading it reproduces the identical
`names`/`encodings` pair"; the model is a concrete injective length-prefixed
encoder into `List Nat` together with its decoder.
-/

/-- Serialize an integer as a single natural: `n ≥ 0` as `2n`, `-(m+1)` as
`2m + 1`. -/
def serInt (i : Int) : List Nat :=
  [if 0 ≤ i then 2 * i.toNat else 2 * (-i).toNat - 1]

/-- Read back one integer. -/
def readInt : List Nat → Option (Int × List Nat)
  | [] => none
  | n :: rest =>
    some (if n % 2 = 0 then ((n / 2 : Nat) : Int) else -(((n + 1) / 2 : Nat) : Int), rest)

/-- Serialize a list with a length prefix. -/
def serList (serA : α → List Nat) (l : List α) : List Nat :=
  l.length :: l.flatMap serA

/-- Read back `k` consecutive values. -/
def readCount (readA : List Nat → Option (α × List Nat)) :
    Nat → List Nat → Option (List α × List Nat)
  | 0, s => some ([], s)
  | k + 1, s =>
    match readA s with
    | none => none
    | some (x, s') =>
      match readCount readA k s' with
      | none => none
      | some (xs, s'') => some (x :: xs, s'')

/-- Read back a length-prefixed list. -/
def readList (readA : List Nat → Option (α × List Nat)) :
    List Nat → Option (List α × List Nat)
  | [] => none
  | n :: rest => readCount readA n rest

/-- Serialize one character as its code point. -/
def serChar (c : Char) : List Nat := [c.toNat]

/-- Read back one character. -/
def readChar : List Nat → Option (Char × List Nat)
  | [] => none
  | n :: rest => some (Char.ofNat n, rest)

/-- Serialize a string as a length-prefixed list of code points. -/
def serString (s : String) : List Nat := serList serChar s.data

/-- Read back a string. -/
def readString (s : List Nat) : Option (String × List Nat) :=
  match readList readChar s with
  | none => none
  | some (cs, rest) => some (String.mk cs, rest)

/-- Serialize one embedding vector. -/
def serEncoding (e : FaceEncoding) : List Nat := serList serInt e

/-- Read back one embedding vector. -/
def readEncoding (s : List Nat) : Option (FaceEncoding × List Nat) :=
  readList readInt s

/-- Serialize the whole store: the `names` list then the `encodings` list
(`pickle.dump(names_and_encodings, f)`). -/
def serStore (st : Store) : List Nat :=
  serList serString st.names ++ serList serEncoding st.encodings

/-- Read the whole store back (`pickle.load(f)`), demanding that the blob is
consumed exactly. -/
def readStore (s : List Nat) : Option Store :=
  match readList readString s with
  | none => none
  | some (ns, s') =>
    match readList readEncoding s' with
    | none => none
    | some (es, s'') => if s'' = [] then some { names := ns, encodings := es } else none

/-- The store file's contents after a training run: `process_known_faces`
opens the fixed path with `mode="wb"`, truncating it, so the previous
contents `prev` are discarded and the serialized fresh store is written. -/
def storeFileAfterTraining (faceLocations : ImageData → List FaceLoc)
    (faceEncodings : ImageData → List FaceLoc → List FaceEncoding)
    (files : List TrainingFile) (prev : List Nat) : List Nat :=
  serStore (processKnownFaces faceLocations faceEncodings files)

/-! Theorems. -/

/-- The training fold, started from any accumulator, appends one copy of the
file's label per extracted embedding and the embeddings themselves. -/
lemma processKnownFaces_foldl (fl : ImageData → List FaceLoc)
    (fe : ImageData → List FaceLoc → List FaceEncoding)
    (files : List TrainingFile) (ns : List String) (es : List FaceEncoding) :
    files.foldl
      (fun acc file =>
        let encoded := encodedFaces fl fe file
        (acc.1 ++ encoded.map (fun _ => file.parentName), acc.2 ++ encoded))
      (ns, es) =
    (ns ++ files.flatMap (fun f => (encodedFaces fl fe f).map (fun _ => f.parentName)),
     es ++ files.flatMap (encodedFaces fl fe)) := by
  induction files generalizing ns es with
  | nil => simp
  | cons f fs ih =>
    simp only [List.foldl_cons, List.flatMap_cons]
    rw [ih]
    simp [List.append_assoc]

/-- Closed form of `process_known_faces`. -/
lemma processKnownFaces_eq (fl : ImageData → List FaceLoc)
    (fe : ImageData → List FaceLoc → List FaceEncoding)
    (files : List TrainingFile) :
    processKnownFaces fl fe files =
      { names := files.flatMap
          (fun f => (encodedFaces fl fe f).map (fun _ => f.parentName)),
        encodings := files.flatMap (encodedFaces fl fe) } := by
  unfold processKnownFaces
  rw [processKnownFaces_foldl]
  simp

/-- Zipping a constant-relabelled copy of a list with the list itself pairs
the constant with each element. -/
lemma zip_map_const (l : List FaceEncoding) (c : String) :
    (l.map (fun _ => c)).zip l = l.map (fun e => (c, e)) := by
  induction l with
  | nil => rfl
  | cons x xs ih => simp only [List.map_cons, List.zip_cons_cons, ih]

/-- C1: over any training tree, when the external library detects `K` faces in
total, the store has `len(names) == len(encodings) == K`, and each `names`
entry is the parent-directory label of the file that produced the paired
encoding (stated as: zipping `names` with `encodings` yields exactly, file by
file, the pairs `(label of file, embedding of file)`). -/
theorem processKnownFaces_invariant (fl : ImageData → List FaceLoc)
    (fe : ImageData → List FaceLoc → List FaceEncoding)
    (files : List TrainingFile) :
    (processKnownFaces fl fe files).names.length =
      (processKnownFaces fl fe files).encodings.length ∧
    (processKnownFaces fl fe files).encodings.length =
      (files.map (fun f => (encodedFaces fl fe f).length)).sum ∧
    (processKnownFaces fl fe files).names.zip
        (processKnownFaces fl fe files).encodings =
      files.flatMap
        (fun f => (encodedFaces fl fe f).map (fun e => (f.parentName, e))) := by
  rw [processKnownFaces_eq]
  refine ⟨?_, ?_, ?_⟩
  · simp [List.length_flatMap, Function.comp_def]
  · simp [List.length_flatMap, Function.comp_def]
  · induction files with
    | nil => rfl
    | cons f fs ih =>
      simp only [List.flatMap_cons]
      rw [List.zip_append (by simp), ih, zip_map_const]

/-- The scan result is one of the scanned elements. -/
lemma pickMax_mem (cnt : String → Nat) (b : String) (l : List String) :
    pickMax cnt b l ∈ b :: l := by
  induction l generalizing b with
  | nil => simp [pickMax]
  | cons x xs ih =>
    rw [pickMax]
    rcases List.mem_cons.mp (ih (if cnt b < cnt x then x else b)) with h | h
    · rw [h]
      split <;> simp
    · simp [List.mem_cons, h]

/-- The scan result attains the maximal count among the scanned elements. -/
lemma le_cnt_pickMax (cnt : String → Nat) (b : String) (l : List String) :
    ∀ x ∈ b :: l, cnt x ≤ cnt (pickMax cnt b l) := by
  induction l generalizing b with
  | nil =>
    intro x hx
    rw [List.mem_singleton] at hx
    simp [pickMax, hx]
  | cons y ys ih =>
    intro x hx
    rw [pickMax]
    rcases List.mem_cons.mp hx with rfl | hx'
    · have hb : cnt x ≤ cnt (if cnt x < cnt y then y else x) := by
        split <;> omega
      exact le_trans hb (ih _ _ (List.mem_cons_self _ _))
    · rcases List.mem_cons.mp hx' with rfl | hx''
      · have hy : cnt x ≤ cnt (if cnt b < cnt x then x else b) := by
          split <;> omega
        exact le_trans hy (ih _ _ (List.mem_cons_self _ _))
      · exact ih _ x (List.mem_cons_of_mem _ hx'')

/-- Everything strictly before the scan result's position has a strictly
smaller count: the scan keeps the FIRST element attaining the maximum. -/
lemma pickMax_split (cnt : String → Nat) (b : String) (l : List String) :
    ∃ l₁ l₂, b :: l = l₁ ++ pickMax cnt b l :: l₂ ∧
      ∀ x ∈ l₁, cnt x < cnt (pickMax cnt b l) := by
  induction l generalizing b with
  | nil => exact ⟨[], [], by simp [pickMax], by simp⟩
  | cons y ys ih =>
    rw [pickMax]
    by_cases h : cnt b < cnt y
    · simp only [if_pos h]
      obtain ⟨l₁, l₂, heq, hlt⟩ := ih y
      refine ⟨b :: l₁, l₂, ?_, ?_⟩
      · rw [List.cons_append, ← heq]
      · intro x hx
        rcases List.mem_cons.mp hx with rfl | hx'
        · exact lt_of_lt_of_le h (le_cnt_pickMax cnt y ys y (List.mem_cons_self _ _))
        · exact hlt x hx'
    · simp only [if_neg h]
      obtain ⟨l₁, l₂, heq, hlt⟩ := ih b
      cases l₁ with
      | nil =>
        rw [List.nil_append] at heq
        refine ⟨[], y :: ys, ?_, by simp⟩
        rw [List.nil_append]
        injection heq with hb hys
        rw [← hb]
      | cons a l₁' =>
        rw [List.cons_append] at heq
        injection heq with hba hys
        refine ⟨b :: y :: l₁', l₂, ?_, ?_⟩
        · simp only [List.cons_append]
          rw [← hys]
        · have hbw : cnt b < cnt (pickMax cnt b ys) := by
            apply hlt
            rw [hba]
            exact List.mem_cons_self _ _
          intro x hx
          rcases List.mem_cons.mp hx with rfl | hx'
          · exact hbw
          · rcases List.mem_cons.mp hx' with rfl | hx''
            · omega
            · exact hlt x (List.mem_cons_of_mem a hx'')

/-- An element not occurring in the prefix is first found at or after the
prefix's end. -/
lemma length_le_indexOf_append (x : String) (l₁ l₂ : List String)
    (hx : x ∉ l₁) : l₁.length ≤ (l₁ ++ l₂).indexOf x := by
  induction l₁ with
  | nil => simp
  | cons a t ih =>
    simp only [List.cons_append, List.length_cons]
    rw [List.indexOf_cons_ne]
    · have := ih (fun hmem => hx (List.mem_cons_of_mem a hmem))
      omega
    · intro hax
      exact hx (hax ▸ List.mem_cons_self a t)

/-- The first occurrence of `w` in `l₁ ++ w :: l₂` is at position
`l₁.length` when `w` is not in `l₁`. -/
lemma indexOf_append_cons_self (w : String) (l₁ l₂ : List String)
    (hw : w ∉ l₁) : (l₁ ++ w :: l₂).indexOf w = l₁.length := by
  induction l₁ with
  | nil => simp
  | cons a t ih =>
    simp only [List.cons_append, List.length_cons]
    rw [List.indexOf_cons_ne]
    · rw [ih (fun hmem => hw (List.mem_cons_of_mem a hmem))]
    · intro haw
      exact hw (haw ▸ List.mem_cons_self a t)

/-- C2: when at least one stored entry matches, `_identify_face` returns a
matching label `w` with the maximal number of matching entries, and any
other label tying that count first matches no earlier than `w` does
(`indexOf` over the matched-name list, which lists matching entries in store
order). -/
theorem identifyFace_plurality (cmp : FaceEncoding → FaceEncoding → Bool)
    (unknown : FaceEncoding) (store : Store)
    (h : matchedNames cmp unknown store ≠ []) :
    ∃ w, identifyFace cmp unknown store = some w ∧
      w ∈ matchedNames cmp unknown store ∧
      (∀ x ∈ matchedNames cmp unknown store,
        (matchedNames cmp unknown store).count x ≤
          (matchedNames cmp unknown store).count w) ∧
      (∀ x ∈ matchedNames cmp unknown store,
        (matchedNames cmp unknown store).count x =
            (matchedNames cmp unknown store).count w →
          (matchedNames cmp unknown store).indexOf w ≤
            (matchedNames cmp unknown store).indexOf x) := by
  obtain ⟨y, ys, hys⟩ := List.exists_cons_of_ne_nil h
  rw [identifyFace, hys, mostCommon1]
  set cnt := fun z => (y :: ys).count z with hcnt
  refine ⟨pickMax cnt y ys, rfl, pickMax_mem cnt y ys, le_cnt_pickMax cnt y ys, ?_⟩
  obtain ⟨l₁, l₂, heq, hlt⟩ := pickMax_split cnt y ys
  intro x hx hcx
  have hwl₁ : pickMax cnt y ys ∉ l₁ := fun hmem => lt_irrefl _ (hlt _ hmem)
  have hxl₁ : x ∉ l₁ := fun hmem => by
    have := hlt x hmem
    simp only [hcnt] at this
    rw [hcx] at this
    exact lt_irrefl _ this
  rw [heq, indexOf_append_cons_self _ _ _ hwl₁]
  exact length_le_indexOf_append x l₁ _ hxl₁

/-- A comparison that matches every stored embedding (concrete test input). -/
def wCmpTrue : FaceEncoding → FaceEncoding → Bool := fun _ _ => true

/-- A comparison that matches no stored embedding (concrete test input). -/
def wCmpFalse : FaceEncoding → FaceEncoding → Bool := fun _ _ => false

/-- A concrete unknown embedding. -/
def wUnknown : FaceEncoding := [0]

/-- A concrete store with two entries for Alice and one for Bob, the spec's
tie-break example. -/
def wStoreTie : Store :=
  { names := ["Alice", "Bob", "Alice"], encodings := [[0], [1], [2]] }

/-- C2 witness: on the spec's example store (Alice twice, Bob once, all
matching) the plurality theorem applies and its hypothesis holds. -/
theorem identifyFace_plurality_witness :
    matchedNames wCmpTrue wUnknown wStoreTie ≠ [] ∧
    ∃ w, identifyFace wCmpTrue wUnknown wStoreTie = some w ∧
      w ∈ matchedNames wCmpTrue wUnknown wStoreTie ∧
      (∀ x ∈ matchedNames wCmpTrue wUnknown wStoreTie,
        (matchedNames wCmpTrue wUnknown wStoreTie).count x ≤
          (matchedNames wCmpTrue wUnknown wStoreTie).count w) ∧
      (∀ x ∈ matchedNames wCmpTrue wUnknown wStoreTie,
        (matchedNames wCmpTrue wUnknown wStoreTie).count x =
            (matchedNames wCmpTrue wUnknown wStoreTie).count w →
          (matchedNames wCmpTrue wUnknown wStoreTie).indexOf w ≤
            (matchedNames wCmpTrue wUnknown wStoreTie).indexOf x) :=
  ⟨by decide, identifyFace_plurality wCmpTrue wUnknown wStoreTie (by decide)⟩

/-- When every comparison is false, no name survives the filter. -/
lemma matchedNames_nil (cmp : FaceEncoding → FaceEncoding → Bool)
    (unknown : FaceEncoding) (store : Store)
    (h : ∀ b ∈ compareFaces cmp store.encodings unknown, b = false) :
    matchedNames cmp unknown store = [] := by
  unfold matchedNames
  rw [List.map_eq_nil_iff, List.filter_eq_nil_iff]
  rintro ⟨b, n⟩ hp
  have hb : b ∈ compareFaces cmp store.encodings unknown :=
    (List.of_mem_zip hp).1
  simp [h b hb]

/-- C3: when the library's match vector is all false, `_identify_face`
returns `None` and `detect_faces` labels the face `"Unknown"`. -/
theorem identifyFace_noMatch (cmp : FaceEncoding → FaceEncoding → Bool)
    (unknown : FaceEncoding) (store : Store)
    (h : ∀ b ∈ compareFaces cmp store.encodings unknown, b = false) :
    identifyFace cmp unknown store = none ∧
    faceLabel cmp unknown store = "Unknown" := by
  have hm := matchedNames_nil cmp unknown store h
  refine ⟨?_, ?_⟩
  · rw [identifyFace, hm]
    rfl
  · rw [faceLabel, identifyFace, hm]
    rfl

/-- C3 witness: with an always-false comparison over the concrete store, the
hypothesis holds and the face is labelled `"Unknown"`. -/
theorem identifyFace_noMatch_witness :
    (∀ b ∈ compareFaces wCmpFalse wStoreTie.encodings wUnknown, b = false) ∧
    identifyFace wCmpFalse wUnknown wStoreTie = none ∧
    faceLabel wCmpFalse wUnknown wStoreTie = "Unknown" :=
  ⟨by decide, identifyFace_noMatch wCmpFalse wUnknown wStoreTie (by decide)⟩

/-- Parsing an argument vector that never mentions `-f` leaves the `f` field
at its starting value (`argparse` gives `-f` no default, so it stays `None`). -/
lemma parseArgsAux_f_eq (argv : List String) (a0 : Args) :
    ∀ a, "-f" ∉ argv → parseArgsAux argv a0 = some a → a.f = a0.f := by
  induction argv, a0 using parseArgsAux.induct with
  | case1 a0 =>
    intro a _ h
    rw [parseArgsAux.eq_def] at h
    cases h
    rfl
  | case2 rest a0 ih =>
    intro a hm h
    rw [parseArgsAux.eq_def] at h
    simp only [reduceIte] at h
    exact ih a (fun hx => hm (List.mem_cons_of_mem _ hx)) h
  | case3 rest a0 h1 ih =>
    intro a hm h
    rw [parseArgsAux.eq_def] at h
    simp only [reduceIte] at h
    exact ih a (fun hx => hm (List.mem_cons_of_mem _ hx)) h
  | case4 rest a0 h1 h2 ih =>
    intro a hm h
    rw [parseArgsAux.eq_def] at h
    simp only [reduceIte] at h
    exact ih a (fun hx => hm (List.mem_cons_of_mem _ hx)) h
  | case5 a0 v rest2 hv h1 h2 h3 ih =>
    intro a hm h
    rw [parseArgsAux.eq_def] at h
    simp only [reduceIte] at h
    rw [if_pos hv] at h
    exact ih a
      (fun hx => hm (List.mem_cons_of_mem _ (List.mem_cons_of_mem _ hx))) h
  | case6 a0 v rest2 hv h1 h2 h3 =>
    intro a hm h
    rw [parseArgsAux.eq_def] at h
    simp only [reduceIte] at h
    rw [if_neg hv] at h
    cases h
  | case7 a0 h1 h2 h3 =>
    intro a hm h
    rw [parseArgsAux.eq_def] at h
    simp only [reduceIte] at h
    cases h
  | case8 a0 v rest2 h1 h2 h3 h4 ih =>
    intro a hm _
    exact absurd (List.mem_cons_self _ _) hm
  | case9 a0 h1 h2 h3 h4 =>
    intro a hm _
    exact absurd (List.mem_cons_self _ _) hm
  | case10 s rest a0 h1 h2 h3 h4 h5 =>
    intro a hm h
    rw [parseArgsAux.eq_def] at h
    simp only [if_neg h1, if_neg h2, if_neg h3, if_neg h4, if_neg h5] at h
    cases h

/-- The parse result of `["--test"]`: accepted, with `f` left at `None`. -/
def wArgsTestOnly : Args :=
  { train := false, validate := false, test := true, m := "hog", f := none }

/-- C5 counterexample: the invocation `--test` with no `-f` is NOT rejected —
`argparse` accepts it (`-f` is optional with default `None`) and the
`__main__` block proceeds to run `detect_faces(image_path=None, ...)`. -/
theorem parseArgs_test_without_f_not_rejected :
    parseArgs ["--test"] = some wArgsTestOnly ∧
    mainActions wArgsTestOnly = [MainAction.test none "hog"] :=
  ⟨rfl, rfl⟩

/-- C5 amended: a test-mode invocation without `-f` is accepted, leaves the
path argument at `None`, and still proceeds to run detection (with that
missing path). -/
theorem testMode_without_f_runs_detection (argv : List String) (a : Args)
    (h : parseArgs argv = some a) (ht : a.test = true)
    (hf : "-f" ∉ argv) :
    a.f = none ∧ MainAction.test none a.m ∈ mainActions a := by
  have hfa : a.f = none := parseArgsAux_f_eq argv defaultArgs a hf h
  refine ⟨hfa, ?_⟩
  rw [← hfa]
  simp [mainActions, ht]

/-- C5 amended witness: the concrete invocation `["--test"]`. -/
theorem testMode_without_f_runs_detection_witness :
    parseArgs ["--test"] = some wArgsTestOnly ∧ wArgsTestOnly.test = true ∧
    "-f" ∉ (["--test"] : List String) ∧
    (wArgsTestOnly.f = none ∧
      MainAction.test none wArgsTestOnly.m ∈ mainActions wArgsTestOnly) :=
  ⟨rfl, rfl, by decide,
    testMode_without_f_runs_detection ["--test"] wArgsTestOnly rfl rfl (by decide)⟩

/-- C6: the store file's contents after training are fully determined by the
training directory (the fixed path is opened with `mode="wb"`, truncating):
any two prior contents give the same written blob, namely the serialization
of the freshly built store. -/
theorem storeFile_independent_of_prev (fl : ImageData → List FaceLoc)
    (fe : ImageData → List FaceLoc → List FaceEncoding)
    (files : List TrainingFile) (prev₁ prev₂ : List Nat) :
    storeFileAfterTraining fl fe files prev₁ =
      storeFileAfterTraining fl fe files prev₂ ∧
    storeFileAfterTraining fl fe files prev₁ =
      serStore (processKnownFaces fl fe files) :=
  ⟨rfl, rfl⟩

/-- C7: each mode runs iff its flag is set, and the executed steps appear in
the fixed order train, validate, test (the run list is a sublist of the full
three-step sequence). -/
theorem mainActions_flags (a : Args) :
    (MainAction.train a.m ∈ mainActions a ↔ a.train = true) ∧
    (MainAction.validate a.m ∈ mainActions a ↔ a.validate = true) ∧
    (MainAction.test a.f a.m ∈ mainActions a ↔ a.test = true) ∧
    List.Sublist (mainActions a)
      [MainAction.train a.m, MainAction.validate a.m, MainAction.test a.f a.m] := by
  rcases a with ⟨tr, va, te, m, f⟩
  cases tr <;> cases va <;> cases te <;>
    simp [mainActions]

/-- C8: the launcher spawns the subprocess with exactly
`[sys.executable, "./recognition.py", "--test", "-f", <chosen path>]` iff the
dialog returned a (truthy, i.e. non-empty) file name, and spawns nothing on
cancel. -/
theorem openFileDialog_spawn_iff (pythonExe dialogResult : String) :
    (dialogResult ≠ "" →
      openFileDialog pythonExe dialogResult =
        some [pythonExe, "./recognition.py", "--test", "-f", dialogResult]) ∧
    (dialogResult = "" → openFileDialog pythonExe dialogResult = none) := by
  constructor
  · intro h
    rw [openFileDialog, if_pos h]
    rfl
  · intro h
    rw [openFileDialog, if_neg (by simp [h])]

/-- C8 witness: a chosen file spawns the command; a cancelled dialog spawns
nothing. -/
theorem openFileDialog_spawn_iff_witness :
    ("img.jpg" ≠ "" ∧
      openFileDialog "python3" "img.jpg" =
        some ["python3", "./recognition.py", "--test", "-f", "img.jpg"]) ∧
    (("" : String) = "" ∧ openFileDialog "python3" "" = none) :=
  ⟨⟨by decide, (openFileDialog_spawn_iff "python3" "img.jpg").1 (by decide)⟩,
    ⟨rfl, (openFileDialog_spawn_iff "python3" "").2 rfl⟩⟩

/-- C9: a plurality winner that is the empty string is replaced by
`"Unknown"` (Python's `if not name:` treats `""` as falsy), so the drawn
label is never the empty string — a stored identity labelled `""` can never
be displayed. -/
theorem faceLabel_empty_winner (cmp : FaceEncoding → FaceEncoding → Bool)
    (unknown : FaceEncoding) (store : Store)
    (h : identifyFace cmp unknown store = some "") :
    faceLabel cmp unknown store = "Unknown" ∧
    ∀ (cmp' : FaceEncoding → FaceEncoding → Bool) (u' : FaceEncoding)
      (s' : Store), faceLabel cmp' u' s' ≠ "" := by
  constructor
  · rw [faceLabel, h]
    rfl
  · intro cmp' u' s'
    rw [faceLabel]
    match identifyFace cmp' u' s' with
    | none => simp
    | some n =>
      by_cases hn : n = "" <;> simp [hn]

/-- A store holding one entry whose label is the empty string. -/
def wStoreEmptyName : Store := { names := [""], encodings := [[0]] }

/-- C9 witness: with a store whose only label is `""` and an always-true
comparison, the winner is `""` and the drawn label is `"Unknown"`. -/
theorem faceLabel_empty_winner_witness :
    identifyFace wCmpTrue wUnknown wStoreEmptyName = some "" ∧
    faceLabel wCmpTrue wUnknown wStoreEmptyName = "Unknown" :=
  ⟨by decide,
    (faceLabel_empty_winner wCmpTrue wUnknown wStoreEmptyName (by decide)).1⟩

/-- C10: with an empty store (no names, no encodings) every unknown face gets
no identity from `_identify_face`, and `detect_faces` draws `"Unknown"` on
every detected face. -/
theorem emptyStore_allUnknown (cmp : FaceEncoding → FaceEncoding → Bool)
    (store : Store) (hn : store.names = []) (he : store.encodings = []) :
    (∀ u : FaceEncoding, identifyFace cmp u store = none) ∧
    (∀ (locs : List FaceLoc) (encs : List FaceEncoding),
      ∀ p ∈ detectFacesLabels cmp locs encs store, p.2 = "Unknown") := by
  have hid : ∀ u : FaceEncoding, identifyFace cmp u store = none := by
    intro u
    rw [identifyFace, matchedNames, compareFaces, he]
    rfl
  refine ⟨hid, ?_⟩
  intro locs encs p hp
  rw [detectFacesLabels] at hp
  obtain ⟨q, _, hq⟩ := List.mem_map.mp hp
  rw [← hq]
  rw [faceLabel, hid]

/-- The empty store. -/
def wStoreEmpty : Store := { names := [], encodings := [] }

/-- C10 witness: on the concrete empty store, identification yields nothing
and a detected face is annotated `"Unknown"`. -/
theorem emptyStore_allUnknown_witness :
    identifyFace wCmpTrue wUnknown wStoreEmpty = none ∧
    ((0, 0, 0, 0), "Unknown") ∈
      detectFacesLabels wCmpTrue [(0, 0, 0, 0)] [wUnknown] wStoreEmpty :=
  ⟨(emptyStore_allUnknown wCmpTrue wStoreEmpty rfl rfl).1 wUnknown, by decide⟩

/-- A reader inverts a serializer: it consumes exactly the serialized prefix
and returns the serialized value. -/
def ReadsBack (serA : α → List Nat)
    (readA : List Nat → Option (α × List Nat)) : Prop :=
  ∀ (x : α) (rest : List Nat), readA (serA x ++ rest) = some (x, rest)

/-- The integer reader inverts the integer serializer. -/
lemma readInt_serInt : ReadsBack serInt readInt := by
  intro i rest
  cases i with
  | ofNat n =>
    simp [serInt, readInt, Int.toNat_ofNat]
  | negSucc n =>
    simp only [serInt, readInt]
    rw [if_neg (Int.not_le.mpr (Int.negSucc_lt_zero n))]
    simp only [List.cons_append, List.nil_append, readInt]
    have h1 : (-(Int.negSucc n)).toNat = n + 1 := by
      rw [Int.neg_negSucc]
      rfl
    rw [h1]
    have h2 : 2 * (n + 1) - 1 = 2 * n + 1 := by omega
    rw [h2]
    rw [if_neg (by omega)]
    have h3 : (2 * n + 1 + 1) / 2 = n + 1 := by omega
    rw [h3]
    simp [Int.negSucc_eq]

/-- Reading back exactly `l.length` values after serializing `l` yields `l`
and leaves the trailing input untouched. -/
lemma readCount_flatMap (serA : α → List Nat)
    (readA : List Nat → Option (α × List Nat)) (h : ReadsBack serA readA)
    (l : List α) (rest : List Nat) :
    readCount readA l.length (l.flatMap serA ++ rest) = some (l, rest) := by
  induction l with
  | nil => simp [readCount]
  | cons x xs ih =>
    rw [List.flatMap_cons, List.length_cons, List.append_assoc, readCount,
      h x]
    simp [ih]

/-- The length-prefixed list reader inverts the list serializer. -/
lemma readList_serList (serA : α → List Nat)
    (readA : List Nat → Option (α × List Nat)) (h : ReadsBack serA readA) :
    ReadsBack (serList serA) (readList readA) := by
  intro l rest
  rw [serList, List.cons_append, readList]
  exact readCount_flatMap serA readA h l rest

/-- The character reader inverts the character serializer. -/
lemma readChar_serChar : ReadsBack serChar readChar := by
  intro c rest
  simp [serChar, readChar, Char.ofNat_toNat]

/-- The string reader inverts the string serializer. -/
lemma readString_serString : ReadsBack serString readString := by
  intro s rest
  rw [serString, readString, readList_serList serChar readChar readChar_serChar]

/-- The embedding reader inverts the embedding serializer. -/
lemma readEncoding_serEncoding : ReadsBack serEncoding readEncoding :=
  fun e rest => readList_serList serInt readInt readInt_serInt e rest

/-- C4: serializing the store (as `process_known_faces` does with
`pickle.dump`) and deserializing (as `detect_faces` does with `pickle.load`)
yields a store with the identical `names` and `encodings` sequences. -/
theorem serStore_roundTrip (st : Store) : readStore (serStore st) = some st := by
  have h1 : readList readString
      (serList serString st.names ++ serList serEncoding st.encodings) =
      some (st.names, serList serEncoding st.encodings) :=
    readList_serList serString readString readString_serString st.names _
  have h2 : readList readEncoding (serList serEncoding st.encodings ++ []) =
      some (st.encodings, []) :=
    readList_serList serEncoding readEncoding readEncoding_serEncoding
      st.encodings []
  rw [List.append_nil] at h2
  rw [serStore, readStore, h1]
  simp [h2]

end Fac3Lab
